import Mathlib

/-!
Verification development for the boost_colab repository, a convenience layer
for running data-science notebooks on Google Colab.  The definitions below are
shallow embeddings, translated from src/boost_colab/__init__.py and
src/boost_colab/__main__.py.  Strings of the Python source are modelled as
Lean String or List Char; subprocess invocations, the filesystem and
environment variables are modelled as explicit inputs and event traces.
-/

namespace BoostColab

/-! ## Basic string and path helpers shared by both modules -/

/-- Whitespace characters recognised by Python's str.strip and by the regex
class backslash-s, restricted to ASCII (the source only deals with ASCII
names and notebook text). -/
def isPySpace (c : Char) : Bool :=
  c = ' ' || c = '\t' || c = '\n' || c = '\r' || c = '\x0b' || c = '\x0c'

/-- Whether a string starts with the given prefix. -/
def strStartsWith (s pre : String) : Bool :=
  pre.data.isPrefixOf s.data

/-- Whether a string ends with the given suffix. -/
def strEndsWith (s suf : String) : Bool :=
  suf.data.isSuffixOf s.data

/-- Python os.path.join for two components, as used by the source: empty left
component yields the right one, an absolute right component replaces the
left, otherwise a single slash separates the two. -/
def pathJoin (a b : String) : String :=
  if a = "" then b
  else if strStartsWith b "/" then b
  else if strEndsWith a "/" then a ++ b
  else a ++ "/" ++ b

/-- Left-pad a decimal string with zeros to the given width, helper for the
Python format spec 03d. -/
def padZeros (w : Nat) (s : String) : String :=
  String.mk (List.replicate (w - s.length) '0') ++ s

/-- Python format spec 03d applied to an integer: total width three including
the sign. -/
def format03 (i : Int) : String :=
  if i < 0 then "-" ++ padZeros 2 (toString i.natAbs)
  else padZeros 3 (toString i.toNat)

/-- Value of a nonempty all-digit character list, none otherwise. -/
def digitsToNat : List Char → Option Nat
  | [] => none
  | [c] => if c.isDigit then some (c.toNat - '0'.toNat) else none
  | c :: cs =>
    if c.isDigit then
      match digitsToNat cs with
      | some n => some ((c.toNat - '0'.toNat) * 10 ^ cs.length + n)
      | none => none
    else none

/-- Python int applied to a string, as used on the sub-job environment
variable: optional sign followed by decimal digits; none models ValueError.
(Surrounding whitespace and underscore separators are not modelled; the
claims only exercise plain decimal values.) -/
def pyParseInt (s : String) : Option Int :=
  match s.data with
  | '-' :: rest => (digitsToNat rest).map (fun n => -(n : Int))
  | '+' :: rest => (digitsToNat rest).map (fun n => (n : Int))
  | l => (digitsToNat l).map (fun n => (n : Int))

/-! ## Project-name derivation (initialize, lines 304-308, and
_get_project_name of the uploader CLI, lines 11-14) -/

/-- Split a character list at the last occurrence of the separator list,
returning the part before and the part after; the recursion prefers the
rightmost occurrence, matching a greedy leading group in the regex. -/
def lastSplitOn (q : List Char) : List Char → Option (List Char × List Char)
  | [] => none
  | c :: cs =>
    match lastSplitOn q cs with
    | some (n, t) => some (c :: n, t)
    | none =>
      if q.isPrefixOf (c :: cs) then some ([], (c :: cs).drop q.length)
      else none

/-- Result of Python re.match applied to the anchored pattern
caret dot-star slash group-of-non-slash dollar: the match succeeds exactly
when the string has a slash whose prefix is newline-free (dot does not match
newline), and group one is the suffix after the last slash. -/
def pyMatchLastSeg (s : List Char) : Option (List Char) :=
  match lastSplitOn ['/'] s with
  | none => none
  | some (bef, aft) => if bef.contains '\n' then none else some aft

/-- Suffix dot-git checked by both derivations. -/
def gitSuffix : List Char := ['.', 'g', 'i', 't']

/-- Python str.strip: drop leading and trailing whitespace. -/
def pyStrip (l : List Char) : List Char :=
  ((l.dropWhile isPySpace).reverse.dropWhile isPySpace).reverse

/-- Python str.rstrip: drop trailing whitespace. -/
def pyRStrip (l : List Char) : List Char :=
  (l.reverse.dropWhile isPySpace).reverse

/-- Project name derivation of initialize (lines 304-308): the final path
segment of the git url, with a trailing dot-git removed; none models the
AttributeError raised when re.match finds no match. -/
def git_project_name (url : List Char) : Option (List Char) :=
  (pyMatchLastSeg url).map fun pn =>
    if gitSuffix.isSuffixOf pn then pn.take (pn.length - 4) else pn

/-- Project name derivation of the uploader CLI, _get_project_name
(lines 11-14): same regex group, stripped of surrounding whitespace before
the dot-git removal. -/
def cli_get_project_name (url : List Char) : Option (List Char) :=
  (pyMatchLastSeg url).map fun g =>
    let pn := pyRStrip (pyStrip g)
    if gitSuffix.isSuffixOf pn then pn.take (pn.length - 4) else pn

/-! ## Session identification (identify_session, lines 117-153) -/

/-- Outcome of the Colab capability probe: importing google.colab.output and
calling eval_js on the window location.  The probe may raise (import failure,
timeout, not on Colab) or return a value, which Python models as None or a
string. -/
inductive ProbeOutcome where
  | raises (exn : String)
  | returns (w : Option String)
deriving DecidableEq

/-- Outcome of the IPython shell introspection: importing get_ipython and
reading the class name of the active shell.  It may raise or produce a class
name. -/
inductive ShellOutcome where
  | raises (exn : String)
  | returns (cls : String)
deriving DecidableEq

/-- Python substring containment, the in operator on str. -/
def strContains : List Char → List Char → Bool
  | hay, needle =>
    needle.isPrefixOf hay ||
      match hay with
      | [] => false
      | _ :: t => strContains t needle

/-- Translation of identify_session: try the Colab probe first; on any
exception fall back to the shell class name, catching only NameError and
ModuleNotFoundError there; only those two handler types exist in the source,
so any other exception from the shell introspection propagates (Except.error).
-/
def identify_session (p : ProbeOutcome) (sh : ShellOutcome) : Except String String :=
  match p with
  | .returns none => .ok "remote-colab"
  | .returns (some w) =>
    if strContains w.data "google".data then .ok "colab" else .ok "remote-colab"
  | .raises _ =>
    match sh with
    | .returns cls =>
      if cls = "ZMQInteractiveShell" then .ok "notebook-qtconsole"
      else if cls = "TerminalInteractiveShell" then .ok "ipython"
      else .ok "other"
    | .raises e =>
      if e = "NameError" || e = "ModuleNotFoundError" then .ok "other"
      else .error e

/-- The five labels the spec says identify_session may produce. -/
def sessionLabels : List String :=
  ["colab", "remote-colab", "notebook-qtconsole", "ipython", "other"]

/-- Boolean success test on the embedded exception monad. -/
def exceptIsOk : Except String String → Bool
  | .ok _ => true
  | .error _ => false

/-! ## Sub-job sequencer (run_sub_jobs, lines 465-583) -/

/-- SUB_JOB_FOLDER_FMT of the source: the folder name sub_job followed by an
underscore and the index in format 03d. -/
def sub_job_folder_fmt (i : Int) : String :=
  "sub_job" ++ "_" ++ format03 i

/-- get_sub_job_folder of run_sub_jobs (lines 500-501). -/
def get_sub_job_folder (data_job : String) (i : Int) : String :=
  pathJoin data_job (sub_job_folder_fmt i)

/-- Inputs of one run_sub_jobs call that the source reads from the outside
world: the function arguments plus the filesystem (isfile) and the exit code
the child notebook process would produce for each sub-job index.  The
notebook-name lookup through the Colab session endpoint and the nbconvert
command line are abstracted into childRc, which stands for the return code of
the synchronous child execution. -/
structure SubJobsCfg where
  data_job : String
  first_job_to_run : Nat
  completion_file : Option String
  isfile : String → Bool
  childRc : Nat → Int

/-- Completion-marker test of the loop (lines 530-532): the marker file named
by completion_file inside the sub-job folder of index i. -/
def markerExists (cfg : SubJobsCfg) (i : Nat) : Bool :=
  match cfg.completion_file with
  | none => false
  | some cf => cfg.isfile (pathJoin (get_sub_job_folder cfg.data_job (Int.ofNat i)) cf)

/-- Result of a run_sub_jobs call: the child invocations performed, in order,
each recorded as the sub-job index together with the value given to the
sub-job environment variable for that invocation; the indices reported
through _print_subprocess_error; and the returned pair or the raised
exception. -/
structure SubJobsOut where
  invoked : List (Nat × String)
  errors : List Nat
  result : Except String (Int × String)

/-- The orchestrator loop of run_sub_jobs (lines 521-578) over a list of
pending indices, accumulating invocations, error reports, and the last value
bound to the loop variable.  A nonzero child return code reports an error and
breaks the loop. -/
def sjLoop (cfg : SubJobsCfg) :
    List Nat → List (Nat × String) → List Nat → Option Nat →
    List (Nat × String) × List Nat × Option Nat
  | [], inv, errs, last => (inv, errs, last)
  | i :: rest, inv, errs, _ =>
    if i < cfg.first_job_to_run then sjLoop cfg rest inv errs (some i)
    else if markerExists cfg i then sjLoop cfg rest inv errs (some i)
    else
      let inv2 := inv ++ [(i, toString i)]
      if cfg.childRc i = 0 then sjLoop cfg rest inv2 errs (some i)
      else (inv2, errs ++ [i], some i)

/-- Translation of run_sub_jobs.  When the sub-job environment variable is
set, its integer value and folder are returned at once (lines 503-511);
a non-integer value raises ValueError, which the source does not catch.
Otherwise the orchestrator loop runs over range n_sub_jobs, and the final
write of the last-index marker references the loop variable, raising
UnboundLocalError when the loop body never bound it (lines 580-583). -/
def run_sub_jobs (envSubJob : Option String) (n_sub_jobs : Nat)
    (cfg : SubJobsCfg) : SubJobsOut :=
  match envSubJob with
  | some v =>
    match pyParseInt v with
    | some i =>
      { invoked := [], errors := []
        result := .ok (i, get_sub_job_folder cfg.data_job i) }
    | none => { invoked := [], errors := [], result := .error "ValueError" }
  | none =>
    match sjLoop cfg (List.range n_sub_jobs) [] [] none with
    | (inv, errs, none) =>
      { invoked := inv, errors := errs, result := .error "UnboundLocalError" }
    | (inv, errs, some _) =>
      { invoked := inv, errors := errs
        result := .ok (Int.ofNat n_sub_jobs, cfg.data_job) }

/-- Eligibility of a sub-job index in the orchestrator loop: not before the
start index and without a completion marker. -/
def eligible (cfg : SubJobsCfg) (i : Nat) : Bool :=
  decide (cfg.first_job_to_run ≤ i) && ! markerExists cfg i

/-- Modelled from the spec: the later variant of run_sub_jobs, whose source
is not under src.  It adds a tolerance flag for the host's deliberate
kernel-termination signal, detected by a substring match on the captured
error stream of the child; killMsg i states that the captured stderr of
sub-job i contains that substring.  With the flag set, such a child exit is
treated as a normal, non-fatal stop of that one sub-job (no error report, the
loop continues); otherwise a nonzero exit is fatal exactly as in the earlier
variant. -/
def sjLoopTolerant (cfg : SubJobsCfg) (tolerate : Bool) (killMsg : Nat → Bool) :
    List Nat → List (Nat × String) → List Nat → Option Nat →
    List (Nat × String) × List Nat × Option Nat
  | [], inv, errs, last => (inv, errs, last)
  | i :: rest, inv, errs, _ =>
    if i < cfg.first_job_to_run then sjLoopTolerant cfg tolerate killMsg rest inv errs (some i)
    else if markerExists cfg i then sjLoopTolerant cfg tolerate killMsg rest inv errs (some i)
    else
      let inv2 := inv ++ [(i, toString i)]
      if cfg.childRc i = 0 then sjLoopTolerant cfg tolerate killMsg rest inv2 errs (some i)
      else if tolerate && killMsg i then sjLoopTolerant cfg tolerate killMsg rest inv2 errs (some i)
      else (inv2, errs ++ [i], some i)

/-- Modelled from the spec: the later variant of run_sub_jobs built on the
tolerant loop; identical to run_sub_jobs otherwise. -/
def run_sub_jobs_tolerant (envSubJob : Option String) (n_sub_jobs : Nat)
    (cfg : SubJobsCfg) (tolerate : Bool) (killMsg : Nat → Bool) : SubJobsOut :=
  match envSubJob with
  | some v =>
    match pyParseInt v with
    | some i =>
      { invoked := [], errors := []
        result := .ok (i, get_sub_job_folder cfg.data_job i) }
    | none => { invoked := [], errors := [], result := .error "ValueError" }
  | none =>
    match sjLoopTolerant cfg tolerate killMsg (List.range n_sub_jobs) [] [] none with
    | (inv, errs, none) =>
      { invoked := inv, errors := errs, result := .error "UnboundLocalError" }
    | (inv, errs, some _) =>
      { invoked := inv, errors := errs
        result := .ok (Int.ofNat n_sub_jobs, cfg.data_job) }

/-- Value of the loop variable after iterating over the given indices,
starting from a previous binding. -/
def lastAfter (l : List Nat) (last : Option Nat) : Option Nat :=
  match l.getLast? with
  | some j => some j
  | none => last

/-! ## Background synchronization loop (_sync_mount_google_drive, inner
function f, lines 204-248) -/

/-- What one iteration of the mirror loop reads from the world: whether the
MyDrive folder is present under the mount point, the exit code of the rsync
subprocess, and the value of the SYNC_STOP flag observed after the sleep. -/
structure SyncInput where
  mounted : Bool
  rc : Int
  stop : Bool
deriving DecidableEq

/-- What one iteration of the mirror loop does: whether drive.mount was
called, the direction of the copy (upload is local to mounted, used on every
iteration after the first), the rsync exit code, whether the error message
was printed and logged, whether the startup lock was released, and whether
sync_loop_event was set. -/
structure SyncEv where
  mountCalled : Bool
  upload : Bool
  rc : Int
  errLogged : Bool
  lockReleased : Bool
  eventSet : Bool
deriving DecidableEq

/-- How the modelled portion of the loop ended: stopped via the SYNC_STOP
flag, or still live after the provided inputs ran out. -/
inductive SyncEnd where
  | stopped
  | running
deriving DecidableEq

/-- One iteration of the loop body as an event record: mount when the folder
is missing (line 209), download on the first iteration and upload afterwards
(lines 216-224), log an error exactly when the exit code is neither 0 nor 24
(lines 235-238), release the lock whenever it is still held (lines 239-240),
and set the event only on exit code 0 (lines 241-242). -/
def syncIterEv (isFirst locked : Bool) (inp : SyncInput) : SyncEv :=
  { mountCalled := ! inp.mounted
    upload := ! isFirst
    rc := inp.rc
    errLogged := decide (¬ (inp.rc = 0 ∨ inp.rc = 24))
    lockReleased := locked
    eventSet := decide (inp.rc = 0) }

/-- The mirror loop over a list of per-iteration inputs.  The loop exits only
when the stop flag is observed (lines 244-248); no exit code of the rsync
subprocess ends it.  The lock is held by the launcher when the loop starts
and the first release unblocks the launcher (the launcher's subsequent
re-acquisition on its own line 252 happens after this function's modelled
portion and is not part of the loop state). -/
def syncLoop : Bool → Bool → List SyncInput → List SyncEv × SyncEnd
  | _, _, [] => ([], .running)
  | isFirst, locked, inp :: rest =>
    let ev := syncIterEv isFirst locked inp
    if inp.stop then ([ev], .stopped)
    else
      let (evs, e) := syncLoop false false rest
      (ev :: evs, e)

/-- Number of iterations the loop executes for the given inputs: up to and
including the first one whose observed stop flag is set.  This count is
defined from the stop flags alone. -/
def syncIterCount : List SyncInput → Nat
  | [] => 0
  | inp :: rest => if inp.stop then 1 else 1 + syncIterCount rest

/-- Whether the loop reaches its stop exit for the given inputs, again
defined from the stop flags alone. -/
def syncStops : List SyncInput → Bool
  | [] => false
  | inp :: rest => if inp.stop then true else syncStops rest

/-! ## At most one mirror loop per process (_sync_mount_google_drive,
lines 184-191 and 243-248): interleaving model -/

/-- Atomic events of the launcher (main thread) and of the old and new loop
threads.  The launcher sets the stop flag (line 188), joins the old thread
(line 189), and starts the new thread (lines 250-251); the old thread runs
iterations and exits once it observes the flag (lines 244-248); the new
thread runs iterations once started. -/
inductive LoopEv where
  | mStop
  | mJoin
  | mStart
  | oIter
  | oExit
  | nIter
deriving DecidableEq

/-- Shared state of the interleaving model: the launcher's program counter
(0 before setting the flag, 1 while joining, 2 after the join, 3 after
starting the new thread), whether the old loop thread is still alive, the
SYNC_STOP flag, and whether the new thread has been started. -/
structure LoopState where
  mpc : Nat
  oldAlive : Bool
  stopFlag : Bool
  newStarted : Bool
deriving DecidableEq

/-- Guarded transition relation of the interleaving model, as a partial step
function: none when the event is not enabled.  mJoin is enabled only once the
old thread has exited, which is how Thread.join behaves; oExit requires the
observed stop flag and clears it (lines 244-246). -/
def loopStep (s : LoopState) : LoopEv → Option LoopState
  | .mStop => if s.mpc = 0 then some { s with mpc := 1, stopFlag := true } else none
  | .mJoin => if s.mpc = 1 ∧ s.oldAlive = false then some { s with mpc := 2 } else none
  | .mStart => if s.mpc = 2 then some { s with mpc := 3, newStarted := true } else none
  | .oIter => if s.oldAlive then some s else none
  | .oExit =>
    if s.oldAlive ∧ s.stopFlag then some { s with oldAlive := false, stopFlag := false }
    else none
  | .nIter => if s.newStarted then some s else none

/-- Execution of a list of events from a state; none when some event along
the way is not enabled. -/
def loopExec (s : LoopState) : List LoopEv → Option LoopState
  | [] => some s
  | e :: rest =>
    match loopStep s e with
    | some s2 => loopExec s2 rest
    | none => none

/-- Initial state of a second launch: the previous loop thread is alive, the
launcher has not yet signalled it, the new thread does not exist. -/
def loopInit : LoopState :=
  { mpc := 0, oldAlive := true, stopFlag := false, newStarted := false }

/-- No old-loop iteration occurs after a new-loop iteration has occurred. -/
def NoOldAfterNew : List LoopEv → Prop
  | [] => True
  | e :: rest => (e = .nIter → .oIter ∉ rest) ∧ NoOldAfterNew rest

/-- Every new-loop iteration is preceded by the old thread's exit; the flag
records whether oExit has already been seen. -/
def NewAfterOldExit : Bool → List LoopEv → Prop
  | _, [] => True
  | seen, e :: rest =>
    (e = .nIter → seen = true) ∧ NewAfterOldExit (seen || decide (e = .oExit)) rest

/-! ## Project initializer (initialize, lines 256-462) -/

/-- Events the initializer performs against the outside world: a checked
subprocess (_run_check_ok), the launch of the background mirror thread
(which itself runs rsync), a change of working directory, an append to a
shell-startup file, setting a process environment variable, a directory
creation, and a file copy. -/
inductive InitEv where
  | run (cmd : List String)
  | syncMount (mountedPath localPath : String)
  | chdir (p : String)
  | writeEnvFile (f : String)
  | setEnv (k v : String)
  | mkdir (p : String)
  | copyFile (src dst : String)
deriving DecidableEq

/-- External-process work: subprocess launches and the mirror-thread launch.
The early-return path of initialize must produce none of these. -/
def isProcEv : InitEv → Bool
  | .run _ => true
  | .syncMount _ _ => true
  | _ => false

/-- How an initialize call ends: the returned pair of data paths, the bare
return after the missing-project-name error print (lines 309-312), or a
raised exception. -/
inductive InitRes where
  | ret (pair : String × String)
  | noneRet
  | raised (msg : String)
deriving DecidableEq

/-- Result of an initialize call: its event trace and its outcome. -/
structure InitOut where
  events : List InitEv
  result : InitRes
deriving DecidableEq

/-- The sync_data_project policy argument (lines 420-445): full mirror,
explicit file list, or nothing.  Any other Python value raises RuntimeError;
the embedding types the argument, so that case does not arise. -/
inductive SyncDataProject where
  | full
  | no
  | files (l : List String)
deriving DecidableEq

/-- Arguments of initialize that the claims exercise.  sync_interval_s only
parameterises the background loop's sleep and is not modelled. -/
structure InitArgs where
  git_url : Option String
  job_name : String
  requirements_file : Option String
  notebooks_folder : Option String
  rsync_flags : Option (List String)
  sync_data_project : SyncDataProject
  force : Bool
  project_name : Option String

/-- What initialize reads from the world: the session label (the outcome of
identify_session, whose probes are its own inputs), the filesystem existence
test, the success of each checked subprocess, and the working directory used
by the outside-Colab branch. -/
structure InitWorld where
  session : String
  pathExists : String → Bool
  cmdOk : List String → Bool
  cwd : String

/-- Outcome of the project-name resolution at the top of initialize
(lines 304-313). -/
inductive NameRes where
  | okName (pn : String)
  | attrErr
  | noneRet
deriving DecidableEq

/-- Project-name resolution of initialize: derive from the git url when one
is given (AttributeError when the url has no slash, since re.match returns
None), otherwise use the explicit project_name, otherwise print an error and
return None. -/
def resolvedName (git_url project_name : Option String) : NameRes :=
  match git_url with
  | some u =>
    match git_project_name u.data with
    | some pn => .okName (String.mk pn)
    | none => .attrErr
  | none =>
    match project_name with
    | some pn => .okName pn
    | none => .noneRet

/-- Default SYNC_RSYNC_FLAGS of the module (lines 45-48). -/
def defaultRsyncFlags : List String := ["-av", "--delete"]

/-- The pair of local data paths initialize computes from the project name
(lines 317-318) and returns on every successful Colab-session path. -/
def localDataPair (pn : String) : String × String :=
  (pathJoin (pathJoin "/content" pn) "data_project" ++ "/",
   pathJoin (pathJoin "/content" pn) "data_job" ++ "/")

/-- Target of chdir_to_notebooks in a Colab session (lines 320-325). -/
def notebooksDir (pn : String) (notebooks_folder : Option String) : String :=
  match notebooks_folder with
  | none => pathJoin "/content" pn
  | some nf => pathJoin (pathJoin "/content" pn) nf

/-- Final step of the full initialization: pip install of the requirements
file when one is given (lines 450-459), then the returned pair. -/
def pipStep (a : InitArgs) (w : InitWorld) (pn : String) (evs : List InitEv) : InitOut :=
  match a.requirements_file with
  | none => { events := evs, result := .ret (localDataPair pn) }
  | some r =>
    let cmd := ["pip", "install", "-r", pathJoin (pathJoin "/content" pn) r]
    if w.cmdOk cmd then { events := evs ++ [.run cmd], result := .ret (localDataPair pn) }
    else { events := evs ++ [.run cmd], result := .raised "Error installing requirements from pip" }

/-- Middle of the full initialization, after the git steps: launch of the
job-data mirror loop (lines 391-405), creation and seeding of the
data_project folder per policy (lines 408-445), then the pip step. -/
def colabAfterGit (a : InitArgs) (w : InitWorld) (pn : String) (evs : List InitEv) : InitOut :=
  let project_path := pathJoin "/content" pn
  let flags := a.rsync_flags.getD defaultRsyncFlags
  let mountedDJ :=
    pathJoin (pathJoin (pathJoin "/content/drive/MyDrive/colab_data" pn) "data_job")
      a.job_name ++ "/"
  let localDP := project_path ++ "/data_project"
  let mountedDP := pathJoin (pathJoin "/content/drive/MyDrive/colab_data" pn) "data_project" ++ "/"
  let evs2 := evs ++ [.syncMount mountedDJ (project_path ++ "/data_job"),
    .mkdir localDP, .mkdir mountedDP]
  match a.sync_data_project with
  | .full =>
    let cmd := ["rsync"] ++ flags ++ [mountedDP, localDP]
    if w.cmdOk cmd then pipStep a w pn (evs2 ++ [.run cmd])
    else { events := evs2 ++ [.run cmd], result := .raised "Error initially syncing data_project" }
  | .no => pipStep a w pn evs2
  | .files l =>
    pipStep a w pn (evs2 ++ l.map (fun f => .copyFile (pathJoin mountedDP f) (pathJoin localDP f)))

/-- Full initialization on Colab when the clone directory does not yet exist
or force is set: write the job name to the shell-startup files and the
environment (lines 343-351), clone and show the last commit when a git url
is given (lines 366-388), then the remaining steps. -/
def colabFull (a : InitArgs) (w : InitWorld) (pn : String) : InitOut :=
  let project_path := pathJoin "/content" pn
  let envEvs : List InitEv :=
    [.writeEnvFile "/etc/environment", .writeEnvFile "/etc/profile",
     .writeEnvFile "/etc/bash.bashrc", .writeEnvFile "/root/.bashrc",
     .setEnv "BOOST_COLAB_JOB_NAME" a.job_name]
  let chd := InitEv.chdir (notebooksDir pn a.notebooks_folder)
  match a.git_url with
  | some u =>
    let cloneCmd := ["git", "clone", u, project_path]
    if w.cmdOk cloneCmd then
      let logCmd := ["git", "log", "--name-status", "HEAD^..HEAD"]
      if w.cmdOk logCmd then colabAfterGit a w pn (envEvs ++ [.run cloneCmd, chd, .run logCmd])
      else { events := envEvs ++ [.run cloneCmd, chd, .run logCmd]
             result := .raised "Error printing last commit" }
    else { events := envEvs ++ [.run cloneCmd]
           result := .raised "Error inicializing from git" }
  | none => colabAfterGit a w pn (envEvs ++ [chd])

/-- Python str of Path(rel).absolute() for the relative paths the
outside-Colab branch uses: a single dot resolves to the working directory, a
leading dot-slash is dropped, and anything else (including a leading
dot-dot, which absolute does not normalise) is appended to the working
directory. -/
def pyAbsolute (cwd rel : String) : String :=
  if rel = "." then cwd
  else if strStartsWith rel "./" then cwd ++ "/" ++ String.mk (rel.data.drop 2)
  else cwd ++ "/" ++ rel

/-- Translation of initialize.  In a Colab session with the clone directory
already present and force unset, the early-return path only changes the
working directory and returns the standard data-path pair (lines 332-342);
otherwise the full path runs.  Outside Colab the data paths are resolved
relative to the working directory's parent (lines 352-363). -/
def initializeProject (a : InitArgs) (w : InitWorld) : InitOut :=
  match resolvedName a.git_url a.project_name with
  | .attrErr => { events := [], result := .raised "AttributeError" }
  | .noneRet => { events := [], result := .noneRet }
  | .okName pn =>
    let project_path := pathJoin "/content" pn
    if w.session = "colab" ∨ w.session = "remote-colab" then
      if w.pathExists project_path && ! a.force then
        { events := [.chdir (notebooksDir pn a.notebooks_folder)]
          result := .ret (localDataPair pn) }
      else colabFull a w pn
    else
      let wd_project := match a.notebooks_folder with | none => "." | some _ => ".."
      let pAbs := pyAbsolute w.cwd wd_project ++ "/"
      let pairOut :=
        (pyAbsolute w.cwd (wd_project ++ "/data_project") ++ "/",
         pyAbsolute w.cwd (wd_project ++ "/data_job") ++ "/")
      { events := [.chdir (match a.notebooks_folder with
          | none => pAbs
          | some nf => pathJoin pAbs nf)]
        result := .ret pairOut }

/-! ## First-cell job-name rewrite (uploader CLI, JOB_NAME_PATTERN at line 38
and the re.sub call at lines 219-224) -/

/-- The literal job_name of the pattern head. -/
def jobNamePatLit : List Char := ['j', 'o', 'b', '_', 'n', 'a', 'm', 'e']

/-- Double-quote alternative of the quote group. -/
def dq : List Char := ['"']

/-- Single-quote alternative of the quote group. -/
def sq : List Char := [Char.ofNat 39]

/-- Triple-double-quote alternative of the quote group. -/
def dq3 : List Char := ['"', '"', '"']

/-- Triple-single-quote alternative of the quote group. -/
def sq3 : List Char := [Char.ofNat 39, Char.ofNat 39, Char.ofNat 39]

/-- Maximal run of whitespace at the front, with the remainder.  In the
pattern every backslash-s-star is followed by a non-whitespace literal, so
the greedy run with backtracking always resolves to the maximal run. -/
def skipWs : List Char → List Char × List Char
  | [] => ([], [])
  | c :: cs =>
    if isPySpace c then
      let (w, r) := skipWs cs
      (c :: w, r)
    else ([], c :: cs)

/-- Strip an exact literal from the front. -/
def stripLit (lit s : List Char) : Option (List Char) :=
  if lit.isPrefixOf s then some (s.drop lit.length) else none

/-- Split into the current line (dot matches no newline) and the remainder
beginning at the newline. -/
def lineOf : List Char → List Char × List Char
  | [] => ([], [])
  | c :: cs =>
    if c = '\n' then ([], c :: cs)
    else
      let (l, r) := lineOf cs
      (c :: l, r)

/-- Try one alternative of the quote group at the current position: the
opening quote, then the greedy name group, the backreference to the quote,
and the greedy tail group running to the end of the line.  Greediness of the
name group makes the backreference match at the last occurrence of the quote
in the line. -/
def tryQuote (q s : List Char) : Option (List Char × List Char × List Char) :=
  match stripLit q s with
  | none => none
  | some s2 =>
    let (line, rest) := lineOf s2
    match lastSplitOn q line with
    | none => none
    | some (n, t) => some (n, t, rest)

/-- Groups of one match of JOB_NAME_PATTERN: head (leading whitespace, the
job_name literal, the equals sign and surrounding whitespace), the quote,
the name, the tail to the end of the line, and the remainder of the cell
after the match. -/
structure JMatch where
  head : List Char
  quote : List Char
  name : List Char
  tail : List Char
  rest : List Char
deriving DecidableEq

/-- Attempt to match JOB_NAME_PATTERN at a line-start position: greedy
whitespace (which may span line breaks), the job_name literal, the equals
sign, then the quote alternatives in the pattern's order. -/
def matchAt (s : List Char) : Option JMatch :=
  let (w1, s1) := skipWs s
  match stripLit jobNamePatLit s1 with
  | none => none
  | some s2 =>
    let (w2, s3) := skipWs s2
    match stripLit ['='] s3 with
    | none => none
    | some s4 =>
      let (w3, s5) := skipWs s4
      let hd := w1 ++ jobNamePatLit ++ w2 ++ ['='] ++ w3
      match tryQuote dq s5 with
      | some (n, t, r) => some ⟨hd, dq, n, t, r⟩
      | none =>
        match tryQuote sq s5 with
        | some (n, t, r) => some ⟨hd, sq, n, t, r⟩
        | none =>
          match tryQuote dq3 s5 with
          | some (n, t, r) => some ⟨hd, dq3, n, t, r⟩
          | none =>
            match tryQuote sq3 s5 with
            | some (n, t, r) => some ⟨hd, sq3, n, t, r⟩
            | none => none

/-- The replacement template of the re.sub call: head, quote, the supplied
job name, quote again, tail.  Python parses the concatenated template for
escape sequences, so this literal splice is exact precisely when the job
name holds no backslash (a backslash in it would be read as a template
escape or group reference, or raise re.error); the rewrite theorem restricts
its name quantifier accordingly. -/
def replOf (newName : List Char) (m : JMatch) : List Char :=
  m.head ++ m.quote ++ newName ++ m.quote ++ m.tail

/-- Scan of re.sub with the MULTILINE flag: positions are tried left to
right, the anchor restricts matches to line starts, every non-overlapping
match is replaced (the call passes no count), and scanning resumes after the
match.  The fuel argument is an upper bound on the characters left. -/
def subScan (newName : List Char) : Nat → Bool → List Char → List Char
  | 0, _, s => s
  | fuel + 1, atStart, s =>
    match (if atStart then matchAt s else none) with
    | some m => replOf newName m ++ subScan newName fuel false m.rest
    | none =>
      match s with
      | [] => []
      | c :: cs => c :: subScan newName fuel (decide (c = '\n')) cs

/-- The first-cell rewrite of the nbupload action: re.sub of
JOB_NAME_PATTERN over the cell source with the job name spliced into the
replacement. -/
def jobSub (newName cell : List Char) : List Char :=
  subScan newName cell.length true cell

/-- The same scan as subScan with the name group of each match rendered by
an arbitrary function of the match, all other text kept.  Instantiated with
the constant new name it reproduces the rewrite; instantiated with the
original name group it reproduces the input, which together state that the
rewrite changes exactly the name group of every match and nothing else. -/
def subWith (f : JMatch → List Char) : Nat → Bool → List Char → List Char
  | 0, _, s => s
  | fuel + 1, atStart, s =>
    match (if atStart then matchAt s else none) with
    | some m =>
      m.head ++ m.quote ++ f m ++ m.quote ++ m.tail ++ subWith f fuel false m.rest
    | none =>
      match s with
      | [] => []
      | c :: cs => c :: subWith f fuel (decide (c = '\n')) cs

/-- Whether the pattern matches anywhere in the cell, scanning from a
position with the given line-start status. -/
def hasMatchFrom : Bool → List Char → Bool
  | atStart, s =>
    (if atStart then (matchAt s).isSome else false) ||
      match s with
      | [] => false
      | c :: cs => hasMatchFrom (decide (c = '\n')) cs

/-- Modelled from the claim's words, for comparison with the code: a rewrite
that replaces only the first match of the cell and leaves the rest of the
cell text unchanged. -/
def subOnceScan (newName : List Char) : Nat → Bool → List Char → List Char
  | 0, _, s => s
  | fuel + 1, atStart, s =>
    match (if atStart then matchAt s else none) with
    | some m => replOf newName m ++ m.rest
    | none =>
      match s with
      | [] => []
      | c :: cs => c :: subOnceScan newName fuel (decide (c = '\n')) cs

/-- First-match-only rewrite over a whole cell, the claim's reading. -/
def jobSubFirstOnly (newName cell : List Char) : List Char :=
  subOnceScan newName cell.length true cell

/-! ## Concrete instances used to exhibit the theorems on explicit inputs -/

/-- A sequencer configuration with a completion marker present for index 1. -/
def demoCfg : SubJobsCfg :=
  { data_job := "/dj", first_job_to_run := 0, completion_file := some "done"
    isfile := fun p => p = "/dj/sub_job_001/done", childRc := fun _ => 0 }

/-- A sequencer configuration whose child fails at index 1. -/
def demoCfgFail : SubJobsCfg :=
  { data_job := "/dj", first_job_to_run := 0, completion_file := none
    isfile := fun _ => false, childRc := fun i => if i = 1 then 17 else 0 }

/-- Captured-stderr classification for the failing demo: the index-1 child
was stopped by the host's kernel-termination signal. -/
def demoKillMsg : Nat → Bool := fun i => i = 1

/-- The first-cell line prefix up to and including the opening quote. -/
def jobNamePrefix : List Char :=
  ['j', 'o', 'b', '_', 'n', 'a', 'm', 'e', ' ', '=', ' ', '"']

/-- A double-quoted job-name assignment line holding the given name. -/
def demoLine (s : List Char) : List Char := jobNamePrefix ++ s ++ ['"']

/-- A two-line cell with a job-name assignment on each line. -/
def demoCell (a b : List Char) : List Char := demoLine a ++ '\n' :: demoLine b

/-- Demo inputs for the mirror loop: a failing exit code, the benign partial
code, then a clean iteration with the stop flag raised. -/
def demoSyncInputs : List SyncInput :=
  [⟨true, 5, false⟩, ⟨false, 24, false⟩, ⟨true, 0, true⟩]

/-- Demo arguments for the initializer: clone from a git url, no
requirements, no notebooks folder, no data_project seeding. -/
def demoInitArgs : InitArgs :=
  { git_url := some "https://g/m/proj.git", job_name := "j"
    requirements_file := none, notebooks_folder := none, rsync_flags := none
    sync_data_project := .no, force := false, project_name := none }

/-- World of a first initializer call on Colab: clone directory absent,
every checked subprocess succeeding. -/
def demoWorld1 : InitWorld :=
  { session := "colab", pathExists := fun _ => false, cmdOk := fun _ => true
    cwd := "/w" }

/-- World of a second initializer call: the clone directory now exists. -/
def demoWorld2 : InitWorld :=
  { session := "colab", pathExists := fun _ => true, cmdOk := fun _ => true
    cwd := "/w" }

/-! ## Helper lemmas about the last-slash split -/

theorem lastSplitOn_not_mem (c0 : Char) :
    ∀ l : List Char, c0 ∉ l → lastSplitOn [c0] l = none := by
  intro l
  induction l with
  | nil => intro _; rfl
  | cons c cs ih =>
    intro h
    have hc : c ≠ c0 := fun he => h (he ▸ List.mem_cons_self c cs)
    have hcs : lastSplitOn [c0] cs = none := ih (fun hm => h (List.mem_cons_of_mem c hm))
    have hpre : ¬ ([c0].isPrefixOf (c :: cs)) := by
      simp [List.isPrefixOf]
      intro he
      exact hc he.symm
    simp [lastSplitOn, hcs]
    intro he
    exact absurd he.symm hc

theorem lastSplitOn_append (pre name : List Char) (hname : '/' ∉ name) :
    lastSplitOn ['/'] (pre ++ '/' :: name) = some (pre, name) := by
  induction pre with
  | nil =>
    cases name with
    | nil => simp [lastSplitOn, List.isPrefixOf]
    | cons c cs =>
      have hc : ¬ ('/' = c) := fun he => hname (he ▸ List.mem_cons_self c cs)
      have hcs : lastSplitOn ['/'] cs = none := by
        have : '/' ∉ cs := fun hm => hname (List.mem_cons_of_mem c hm)
        exact lastSplitOn_not_mem '/' cs this
      simp [lastSplitOn, hcs, List.isPrefixOf, hc]
  | cons p ps ih =>
    simp [lastSplitOn, ih]

theorem contains_eq_false_of_not_mem {l : List Char} {c : Char} (h : c ∉ l) :
    l.contains c = false := by
  simp [List.contains, List.elem_eq_mem, h]

theorem dropWhile_eq_self_of_all {p : Char → Bool} :
    ∀ {l : List Char}, (∀ c ∈ l, p c = false) → l.dropWhile p = l := by
  intro l h
  cases l with
  | nil => rfl
  | cons c cs => simp [List.dropWhile, h c (List.mem_cons_self c cs)]

theorem pyStrip_eq_self {l : List Char} (h : ∀ c ∈ l, isPySpace c = false) :
    pyStrip l = l := by
  unfold pyStrip
  rw [dropWhile_eq_self_of_all h]
  rw [dropWhile_eq_self_of_all (fun c hc => h c (List.mem_reverse.mp hc))]
  exact List.reverse_reverse l

theorem pyRStrip_eq_self {l : List Char} (h : ∀ c ∈ l, isPySpace c = false) :
    pyRStrip l = l := by
  unfold pyRStrip
  rw [dropWhile_eq_self_of_all (fun c hc => h c (List.mem_reverse.mp hc))]
  exact List.reverse_reverse l

theorem pyMatchLastSeg_append {pre seg : List Char} (hseg : '/' ∉ seg)
    (hpre : '\n' ∉ pre) :
    pyMatchLastSeg (pre ++ '/' :: seg) = some seg := by
  unfold pyMatchLastSeg
  rw [lastSplitOn_append pre seg hseg]
  simp only [contains_eq_false_of_not_mem hpre]
  rfl

theorem take_append_length {name suf : List Char} :
    (name ++ suf).take ((name ++ suf).length - suf.length) = name := by
  have h1 : (name ++ suf).length - suf.length = name.length := by
    simp [List.length_append]
  rw [h1]
  exact List.take_left name suf

/-- C8: for every repository url ending in a final path segment name.git or
name, with at least one slash before it, the derived project name equals
name in both cases, in both the initializer (initialize, lines 304-308) and
the uploader CLI (_get_project_name, lines 11-14).  The side conditions make
name an ordinary final path segment: no slash, no whitespace, no newline in
the prefix, and not itself ending in dot-git. -/
theorem derived_project_name_correct (pre name : List Char)
    (hslash : '/' ∉ name)
    (hnl : '\n' ∉ pre)
    (hgit : gitSuffix.isSuffixOf name = false)
    (hws : ∀ c ∈ name, isPySpace c = false) :
    git_project_name (pre ++ '/' :: (name ++ gitSuffix)) = some name ∧
    git_project_name (pre ++ '/' :: name) = some name ∧
    cli_get_project_name (pre ++ '/' :: (name ++ gitSuffix)) = some name ∧
    cli_get_project_name (pre ++ '/' :: name) = some name := by
  have hslash2 : '/' ∉ name ++ gitSuffix := by
    intro hm
    rcases List.mem_append.mp hm with h | h
    · exact hslash h
    · simp [gitSuffix] at h
  have hm1 := pyMatchLastSeg_append hslash2 hnl
  have hm2 := pyMatchLastSeg_append hslash hnl
  have hsufT : gitSuffix.isSuffixOf (name ++ gitSuffix) = true :=
    List.isSuffixOf_iff_suffix.mpr (List.suffix_append name gitSuffix)
  have hwsApp : ∀ c ∈ name ++ gitSuffix, isPySpace c = false := by
    intro c hc
    rcases List.mem_append.mp hc with h | h
    · exact hws c h
    · simp [gitSuffix] at h
      rcases h with h | h | h | h <;> subst h <;> rfl
  have htake : (name ++ gitSuffix).take ((name ++ gitSuffix).length - 4) = name := by
    have h4 : (4 : Nat) = gitSuffix.length := rfl
    rw [h4]
    exact take_append_length
  have hstrip1 : (if gitSuffix.isSuffixOf (name ++ gitSuffix) then
      (name ++ gitSuffix).take ((name ++ gitSuffix).length - 4)
      else (name ++ gitSuffix)) = name := by
    rw [if_pos hsufT]
    exact htake
  have hstrip2 : (if gitSuffix.isSuffixOf name then
      name.take (name.length - 4) else name) = name := by
    rw [hgit]
    simp
  refine ⟨?_, ?_, ?_, ?_⟩
  · rw [git_project_name, hm1, Option.map_some', hstrip1]
  · rw [git_project_name, hm2, Option.map_some', hstrip2]
  · rw [cli_get_project_name, hm1, Option.map_some']
    simp only [pyStrip_eq_self hwsApp, pyRStrip_eq_self hwsApp]
    rw [hstrip1]
  · rw [cli_get_project_name, hm2, Option.map_some']
    simp only [pyStrip_eq_self hws, pyRStrip_eq_self hws]
    rw [hstrip2]

/-- Witness for C8 at a concrete url. -/
theorem derived_project_name_correct_witness :
    git_project_name ("https:/".data ++ '/' :: ("github.com/matbb".data ++ '/' ::
      ("boost_colab".data ++ gitSuffix))) = some "boost_colab".data ∧
    git_project_name ("https:/".data ++ '/' :: ("github.com/matbb".data ++ '/' ::
      "boost_colab".data)) = some "boost_colab".data ∧
    cli_get_project_name ("https:/".data ++ '/' :: ("github.com/matbb".data ++ '/' ::
      ("boost_colab".data ++ gitSuffix))) = some "boost_colab".data ∧
    cli_get_project_name ("https:/".data ++ '/' :: ("github.com/matbb".data ++ '/' ::
      "boost_colab".data)) = some "boost_colab".data := by
  have h := derived_project_name_correct
    ("https:/".data ++ '/' :: "github.com/matbb".data) "boost_colab".data
    (by decide) (by decide) (by decide) (by decide)
  simpa using h

/-! ## Session identification: C9 -/

/-- C9 counterexample: the claim says identify_session never raises for
every probe and shell-introspection outcome, but the fallback catches only
NameError and ModuleNotFoundError (lines 149-152), so a shell introspection
raising any other exception propagates out of identify_session. -/
theorem identify_session_claim_false :
    exceptIsOk (identify_session (.raises "ImportError") (.raises "RuntimeError")) = false := rfl

/-- C9 amended: identify_session returns one of the five labels, never
raising, for every probe outcome and for every shell-introspection outcome
that returns normally or raises one of the two caught exception types; and
on total failure (probe raising, introspection raising a caught type) it
returns the default label. -/
theorem identify_session_labels (p : ProbeOutcome) (sh : ShellOutcome)
    (h : ∀ e, sh = .raises e → e = "NameError" ∨ e = "ModuleNotFoundError") :
    (∃ l ∈ sessionLabels, identify_session p sh = .ok l) ∧
    (∀ e1 e2 : String, (e2 = "NameError" ∨ e2 = "ModuleNotFoundError") →
      identify_session (.raises e1) (.raises e2) = .ok "other") := by
  constructor
  · cases p with
    | returns w =>
      cases w with
      | none => exact ⟨"remote-colab", by simp [sessionLabels], rfl⟩
      | some s =>
        cases hg : strContains s.data "google".data with
        | true =>
          exact ⟨"colab", by simp [sessionLabels], by simp [identify_session, hg]⟩
        | false =>
          exact ⟨"remote-colab", by simp [sessionLabels], by simp [identify_session, hg]⟩
    | raises e1 =>
      cases sh with
      | returns cls =>
        by_cases h1 : cls = "ZMQInteractiveShell"
        · exact ⟨"notebook-qtconsole", by simp [sessionLabels],
            by simp [identify_session, h1]⟩
        · by_cases h2 : cls = "TerminalInteractiveShell"
          · exact ⟨"ipython", by simp [sessionLabels], by simp [identify_session, h1, h2]⟩
          · exact ⟨"other", by simp [sessionLabels], by simp [identify_session, h1, h2]⟩
      | raises e =>
        refine ⟨"other", by simp [sessionLabels], ?_⟩
        rcases h e rfl with he | he <;> subst he <;> rfl
  · intro e1 e2 h2
    rcases h2 with h2 | h2 <;> subst h2 <;> rfl

/-- Witness for C9's amended theorem: total failure with a caught exception
type yields the default label. -/
theorem identify_session_labels_witness :
    identify_session (.raises "ImportError") (.raises "ModuleNotFoundError") = .ok "other" := by
  have h := identify_session_labels (.raises "ImportError") (.raises "ModuleNotFoundError")
    (by intro e he; cases he; exact Or.inr rfl)
  exact h.2 "ImportError" "ModuleNotFoundError" (Or.inr rfl)

/-! ## Sub-job sequencer: helper lemmas -/

theorem lastAfter_cons (i : Nat) (rest : List Nat) (last : Option Nat) :
    lastAfter (i :: rest) last = lastAfter rest (some i) := by
  cases rest with
  | nil => rfl
  | cons j r =>
    unfold lastAfter
    rw [List.getLast?_cons_cons]
    cases hg : (j :: r).getLast? with
    | some v => rfl
    | none =>
      rw [List.getLast?_eq_none_iff] at hg
      cases hg

theorem sjLoop_prefix_ok (cfg : SubJobsCfg) :
    ∀ (l1 : List Nat), (∀ i ∈ l1, cfg.childRc i = 0) →
      ∀ (l2 : List Nat) (inv : List (Nat × String)) (errs : List Nat) (last : Option Nat),
        sjLoop cfg (l1 ++ l2) inv errs last
          = sjLoop cfg l2 (inv ++ (l1.filter (eligible cfg)).map (fun i => (i, toString i)))
              errs (lastAfter l1 last) := by
  intro l1
  induction l1 with
  | nil => intro _ l2 inv errs last; simp [lastAfter]
  | cons i rest ih =>
    intro h l2 inv errs last
    have hi : cfg.childRc i = 0 := h i (List.mem_cons_self i rest)
    have hrest : ∀ j ∈ rest, cfg.childRc j = 0 := fun j hj => h j (List.mem_cons_of_mem i hj)
    rw [List.cons_append, lastAfter_cons]
    by_cases h1 : i < cfg.first_job_to_run
    · have he : eligible cfg i = false := by
        simp [eligible, Nat.not_le.mpr h1]
      simp only [sjLoop, if_pos h1]
      rw [ih hrest l2 inv errs (some i)]
      simp [List.filter_cons, he]
    · cases h2 : markerExists cfg i with
      | true =>
        have he : eligible cfg i = false := by simp [eligible, h2]
        simp only [sjLoop, if_neg h1, h2, if_pos rfl]
        rw [ih hrest l2 inv errs (some i)]
        simp [List.filter_cons, he]
      | false =>
        have he : eligible cfg i = true := by
          simp [eligible, h2, Nat.le_of_not_lt h1]
        simp only [sjLoop, if_neg h1, h2]
        simp only [Bool.false_eq_true, if_neg (by simp : ¬ (false = true)), if_pos hi]
        rw [ih hrest l2 (inv ++ [(i, toString i)]) errs (some i)]
        simp [List.filter_cons, he]

theorem sjLoop_all_ok (cfg : SubJobsCfg) (l : List Nat)
    (h : ∀ i ∈ l, cfg.childRc i = 0) (inv : List (Nat × String)) (errs : List Nat)
    (last : Option Nat) :
    sjLoop cfg l inv errs last
      = (inv ++ (l.filter (eligible cfg)).map (fun i => (i, toString i)), errs,
         lastAfter l last) := by
  have h2 := sjLoop_prefix_ok cfg l h [] inv errs last
  rw [List.append_nil] at h2
  rw [h2]
  rfl

theorem sjLoop_break (cfg : SubJobsCfg) (j : Nat) (rest : List Nat)
    (inv : List (Nat × String)) (errs : List Nat) (last : Option Nat)
    (h1 : ¬ j < cfg.first_job_to_run) (h2 : markerExists cfg j = false)
    (h3 : ¬ cfg.childRc j = 0) :
    sjLoop cfg (j :: rest) inv errs last
      = (inv ++ [(j, toString j)], errs ++ [j], some j) := by
  simp [sjLoop, h1, h2, h3]

/-- C2: in orchestrator mode with every child succeeding, the child is
invoked exactly once per eligible index (at or past the start index, no
completion marker), in increasing order, with the sub-job environment
variable set to the index; and when the environment variable is already set
to an integer, no child is invoked and the call returns at once with that
index and its sub_job folder. -/
theorem run_sub_jobs_sequences (n : Nat) (cfg : SubJobsCfg)
    (hrc : ∀ i, i < n → cfg.childRc i = 0) :
    (run_sub_jobs none n cfg).invoked
      = ((List.range n).filter (eligible cfg)).map (fun i => (i, toString i)) ∧
    (∀ (s : String) (i : Int), pyParseInt s = some i →
      run_sub_jobs (some s) n cfg
        = { invoked := [], errors := []
            result := .ok (i, get_sub_job_folder cfg.data_job i) }) := by
  constructor
  · have h := sjLoop_all_ok cfg (List.range n)
      (fun i hi => hrc i (List.mem_range.mp hi)) [] [] none
    unfold run_sub_jobs
    rw [h]
    cases lastAfter (List.range n) none <;> simp
  · intro s i hp
    simp [run_sub_jobs, hp]

/-- Witness for C2: three sub-jobs with a completion marker at index 1 run
exactly indices 0 and 2, in order; a child call with the variable set to 2
returns immediately with the index-2 folder. -/
theorem run_sub_jobs_sequences_witness :
    (run_sub_jobs none 3 demoCfg).invoked = [(0, "0"), (2, "2")] ∧
    run_sub_jobs (some "2") 3 demoCfg
      = { invoked := [], errors := [], result := .ok (2, "/dj/sub_job_002") } := by
  have h := run_sub_jobs_sequences 3 demoCfg (by decide)
  constructor
  · rw [h.1]; rfl
  · have h2 := h.2 "2" 2 (by decide)
    rw [h2]
    rfl

/-- C10: in orchestrator mode with n_sub_jobs = 0, the loop body never runs,
so the final write of the last-index marker references the loop variable
before any assignment and the call raises UnboundLocalError instead of
returning. -/
theorem run_sub_jobs_zero_raises (cfg : SubJobsCfg) :
    run_sub_jobs none 0 cfg
      = { invoked := [], errors := [], result := .error "UnboundLocalError" } := rfl

theorem sjLoopTolerant_all_ok (cfg : SubJobsCfg) (tolerate : Bool) (killMsg : Nat → Bool) :
    ∀ (l : List Nat), (∀ i ∈ l, cfg.childRc i = 0 ∨ (tolerate && killMsg i) = true) →
      ∀ (inv : List (Nat × String)) (errs : List Nat) (last : Option Nat),
        sjLoopTolerant cfg tolerate killMsg l inv errs last
          = (inv ++ (l.filter (eligible cfg)).map (fun i => (i, toString i)), errs,
             lastAfter l last) := by
  intro l
  induction l with
  | nil => intro _ inv errs last; simp [sjLoopTolerant, lastAfter]
  | cons i rest ih =>
    intro h inv errs last
    have hi := h i (List.mem_cons_self i rest)
    have hrest : ∀ j ∈ rest, cfg.childRc j = 0 ∨ (tolerate && killMsg j) = true :=
      fun j hj => h j (List.mem_cons_of_mem i hj)
    rw [lastAfter_cons]
    by_cases h1 : i < cfg.first_job_to_run
    · have he : eligible cfg i = false := by
        simp [eligible, Nat.not_le.mpr h1]
      simp only [sjLoopTolerant, if_pos h1]
      rw [ih hrest inv errs (some i)]
      simp [List.filter_cons, he]
    · cases h2 : markerExists cfg i with
      | true =>
        have he : eligible cfg i = false := by simp [eligible, h2]
        simp only [sjLoopTolerant, if_neg h1, h2, if_pos rfl]
        rw [ih hrest inv errs (some i)]
        simp [List.filter_cons, he]
      | false =>
        have he : eligible cfg i = true := by
          simp [eligible, h2, Nat.le_of_not_lt h1]
        rcases hi with hi | hi
        · simp only [sjLoopTolerant, if_neg h1, h2]
          simp only [Bool.false_eq_true, if_neg (by simp : ¬ (false = true)), if_pos hi]
          rw [ih hrest (inv ++ [(i, toString i)]) errs (some i)]
          simp [List.filter_cons, he]
        · by_cases hrc : cfg.childRc i = 0
          · simp only [sjLoopTolerant, if_neg h1, h2]
            simp only [Bool.false_eq_true, if_neg (by simp : ¬ (false = true)), if_pos hrc]
            rw [ih hrest (inv ++ [(i, toString i)]) errs (some i)]
            simp [List.filter_cons, he]
          · simp only [sjLoopTolerant, if_neg h1, h2]
            simp only [Bool.false_eq_true, if_neg (by simp : ¬ (false = true)),
              if_neg hrc, if_pos hi]
            rw [ih hrest (inv ++ [(i, toString i)]) errs (some i)]
            simp [List.filter_cons, he]

/-- C7: in orchestrator mode a nonzero child exit at index j reports that
index as an error and stops the loop, with no later index invoked (the
invocations are exactly the eligible indices up to j); while the later
variant with the tolerance flag set, when the child's captured error stream
carries the kernel-termination message, treats that exit as a normal stop of
that one sub-job: no error is reported and every eligible index of the whole
range is still invoked. -/
theorem run_sub_jobs_failure_handling (n j : Nat) (cfg : SubJobsCfg) (killMsg : Nat → Bool)
    (hj : j < n) (hfirst : cfg.first_job_to_run ≤ j)
    (hmk : markerExists cfg j = false) (hrc : ¬ cfg.childRc j = 0)
    (hothers : ∀ i, i < n → i ≠ j → cfg.childRc i = 0)
    (hkill : killMsg j = true) :
    ((run_sub_jobs none n cfg).invoked
        = ((List.range (j + 1)).filter (eligible cfg)).map (fun i => (i, toString i)) ∧
      (run_sub_jobs none n cfg).errors = [j]) ∧
    ((run_sub_jobs_tolerant none n cfg true killMsg).invoked
        = ((List.range n).filter (eligible cfg)).map (fun i => (i, toString i)) ∧
      (run_sub_jobs_tolerant none n cfg true killMsg).errors = []) := by
  have hje : eligible cfg j = true := by simp [eligible, hfirst, hmk]
  constructor
  · have hsub : n - j = (n - j - 1) + 1 := by omega
    have hsplit : List.range n = List.range' 0 j ++ (j :: List.range' (j + 1) (n - j - 1)) := by
      rw [List.range_eq_range']
      have h1 : List.range' 0 j ++ List.range' (0 + 1 * j) (n - j) = List.range' 0 (n - j + j) :=
        List.range'_append 0 j (n - j) 1
      have h2 : n - j + j = n := by omega
      rw [h2] at h1
      rw [← h1]
      have h3 : 0 + 1 * j = j := by omega
      rw [h3, hsub, List.range'_succ]
      simp
    have hpre : ∀ i ∈ List.range' 0 j, cfg.childRc i = 0 := by
      intro i hi
      have := List.mem_range'_1.mp hi
      exact hothers i (by omega) (by omega)
    have hloop : sjLoop cfg (List.range n) [] [] none
        = (((List.range' 0 j).filter (eligible cfg)).map (fun i => (i, toString i))
            ++ [(j, toString j)], [j], some j) := by
      rw [hsplit, sjLoop_prefix_ok cfg (List.range' 0 j) hpre]
      rw [sjLoop_break cfg j _ _ _ _ (Nat.not_lt.mpr hfirst) hmk hrc]
      simp
    have hrange : List.range (j + 1) = List.range' 0 j ++ [j] := by
      rw [List.range_succ, List.range_eq_range']
    unfold run_sub_jobs
    rw [hloop]
    constructor
    · simp only [hrange, List.filter_append, List.map_append, List.filter_cons, hje]
      simp
    · simp
  · have hall : ∀ i ∈ List.range n, cfg.childRc i = 0 ∨ (true && killMsg i) = true := by
      intro i hi
      by_cases hij : i = j
      · subst hij
        exact Or.inr (by simp [hkill])
      · exact Or.inl (hothers i (List.mem_range.mp hi) hij)
    have hloop := sjLoopTolerant_all_ok cfg true killMsg (List.range n) hall [] [] none
    unfold run_sub_jobs_tolerant
    rw [hloop]
    cases lastAfter (List.range n) none <;> simp

/-- Witness for C7: three sub-jobs whose index-1 child exits nonzero: the
earlier variant stops after index 1 and reports it; the tolerant variant
with the kernel-kill classification of index 1 runs all three. -/
theorem run_sub_jobs_failure_handling_witness :
    ((run_sub_jobs none 3 demoCfgFail).invoked = [(0, "0"), (1, "1")] ∧
      (run_sub_jobs none 3 demoCfgFail).errors = [1]) ∧
    ((run_sub_jobs_tolerant none 3 demoCfgFail true demoKillMsg).invoked
        = [(0, "0"), (1, "1"), (2, "2")] ∧
      (run_sub_jobs_tolerant none 3 demoCfgFail true demoKillMsg).errors = []) := by
  have h := run_sub_jobs_failure_handling 3 1 demoCfgFail demoKillMsg
    (by decide) (by decide) (by decide) (by decide) (by decide) (by decide)
  refine ⟨⟨?_, h.1.2⟩, ⟨?_, h.2.2⟩⟩
  · rw [h.1.1]; rfl
  · rw [h.2.1]; rfl

/-! ## Mirror loop: C4 and C5 -/

theorem syncLoop_iter_events :
    ∀ (inputs : List SyncInput) (isFirst locked : Bool),
      (∀ ev ∈ (syncLoop isFirst locked inputs).1,
        ev.errLogged = decide (¬ (ev.rc = 0 ∨ ev.rc = 24)) ∧
        ev.eventSet = decide (ev.rc = 0)) ∧
      (syncLoop isFirst locked inputs).1.length = syncIterCount inputs ∧
      (syncLoop isFirst locked inputs).2
        = (if syncStops inputs then SyncEnd.stopped else SyncEnd.running) := by
  intro inputs
  induction inputs with
  | nil =>
    intro isFirst locked
    exact ⟨by simp [syncLoop], rfl, rfl⟩
  | cons inp rest ih =>
    intro isFirst locked
    cases hstop : inp.stop with
    | true =>
      refine ⟨?_, ?_, ?_⟩
      · intro ev hev
        simp [syncLoop, hstop] at hev
        subst hev
        exact ⟨rfl, rfl⟩
      · simp [syncLoop, hstop, syncIterCount]
      · simp [syncLoop, hstop, syncStops]
    | false =>
      obtain ⟨ihm, ihl, ihe⟩ := ih false false
      refine ⟨?_, ?_, ?_⟩
      · intro ev hev
        simp only [syncLoop, hstop] at hev
        simp only [Bool.false_eq_true, if_neg (by simp : ¬ (false = true))] at hev
        rcases List.mem_cons.mp hev with hev | hev
        · subst hev
          exact ⟨rfl, rfl⟩
        · exact ihm ev hev
      · simp [syncLoop, hstop, syncIterCount, ihl]
        omega
      · simp [syncLoop, hstop, syncStops, ihe]

/-- C4: in every iteration of the mirror loop, exit code 0 is full success
(the sync event is set), 24 is an ignorable partial success, and every other
exit code is logged as an error; no exit code ends the loop or escapes it:
the number of iterations executed and how the loop ends are determined by
the stop flags alone. -/
theorem sync_loop_tolerates_all_exit_codes (inputs : List SyncInput) :
    (∀ ev ∈ (syncLoop true true inputs).1,
       ev.errLogged = decide (¬ (ev.rc = 0 ∨ ev.rc = 24)) ∧
       ev.eventSet = decide (ev.rc = 0)) ∧
    (syncLoop true true inputs).1.length = syncIterCount inputs ∧
    (syncLoop true true inputs).2
      = (if syncStops inputs then SyncEnd.stopped else SyncEnd.running) :=
  syncLoop_iter_events inputs true true

/-- Witness for C4: a first iteration with exit code 5 logs the error and
does not set the sync event. -/
theorem sync_loop_tolerates_all_exit_codes_witness :
    (syncIterEv true true ⟨true, 5, false⟩).errLogged
        = decide (¬ ((5 : Int) = 0 ∨ (5 : Int) = 24)) ∧
    (syncIterEv true true ⟨true, 5, false⟩).eventSet = decide ((5 : Int) = 0) :=
  (sync_loop_tolerates_all_exit_codes demoSyncInputs).1
    (syncIterEv true true ⟨true, 5, false⟩) (by decide)

/-- C5 counterexample: the loop releases the startup lock on its first
iteration unconditionally (source lines 239-240), so at a first mirror
attempt exiting with code 1 the lock is released and the launcher is
unblocked, refuting the claim that the release happens only on exit codes
0 or 24. -/
theorem sync_lock_release_claim_false :
    ¬ (∀ ev ∈ (syncLoop true true [⟨true, 1, true⟩]).1,
        ev.lockReleased = true → ev.rc = 0 ∨ ev.rc = 24) := by decide

/-- C5 amended: the launching function stays blocked until an iteration has
run (an empty run produces no events and hence no release), and the first
iteration releases the startup lock whatever the mirror exit code, so the
caller resumes exactly after the first mirror attempt completes, with any
outcome. -/
theorem sync_lock_released_after_first_attempt (inp : SyncInput) (rest : List SyncInput) :
    ((syncLoop true true (inp :: rest)).1.head?.map SyncEv.lockReleased) = some true ∧
    (syncLoop true true []).1 = [] := by
  constructor
  · cases h : inp.stop <;> simp [syncLoop, h, syncIterEv]
  · rfl

/-! ## At most one mirror loop: C6 -/

theorem loopStep_dead {s s2 : LoopState} {e : LoopEv}
    (h : loopStep s e = some s2) (hd : s.oldAlive = false) :
    s2.oldAlive = false ∧ e ≠ LoopEv.oIter := by
  cases e <;>
    · simp only [loopStep] at h
      split at h
      · first
        | · obtain rfl := Option.some.inj h
            simp_all
      · exact absurd h (by simp)

theorem loopStep_inv {s s2 : LoopState} {e : LoopEv}
    (h : loopStep s e = some s2)
    (hs : (s.newStarted = true ∨ 2 ≤ s.mpc) → s.oldAlive = false) :
    (s2.newStarted = true ∨ 2 ≤ s2.mpc) → s2.oldAlive = false := by
  cases e with
  | mStop =>
    simp only [loopStep] at h
    split at h
    · obtain rfl := Option.some.inj h
      intro hx
      simp only at hx
      rcases hx with hx | hx
      · exact hs (Or.inl hx)
      · omega
    · exact absurd h (by simp)
  | mJoin =>
    simp only [loopStep] at h
    split at h
    · obtain rfl := Option.some.inj h
      intro _
      simp_all
    · exact absurd h (by simp)
  | mStart =>
    simp only [loopStep] at h
    split at h
    · obtain rfl := Option.some.inj h
      intro _
      have : s.oldAlive = false := hs (Or.inr (by omega))
      simpa using this
    · exact absurd h (by simp)
  | oIter =>
    simp only [loopStep] at h
    split at h
    · obtain rfl := Option.some.inj h
      exact hs
    · exact absurd h (by simp)
  | oExit =>
    simp only [loopStep] at h
    split at h
    · obtain rfl := Option.some.inj h
      intro _
      simp
    · exact absurd h (by simp)
  | nIter =>
    simp only [loopStep] at h
    split at h
    · obtain rfl := Option.some.inj h
      exact hs
    · exact absurd h (by simp)

theorem loopStep_oldAlive_stable {s s2 : LoopState} {e : LoopEv}
    (h : loopStep s e = some s2) (hne : e ≠ LoopEv.oExit) :
    s2.oldAlive = s.oldAlive := by
  cases e <;>
    · simp only [loopStep] at h
      split at h
      · first
        | · obtain rfl := Option.some.inj h
            simp_all
      · exact absurd h (by simp)

theorem loopExec_no_oIter :
    ∀ (tr : List LoopEv) (s s2 : LoopState), loopExec s tr = some s2 →
      s.oldAlive = false → LoopEv.oIter ∉ tr := by
  intro tr
  induction tr with
  | nil => intro s s2 _ _; simp
  | cons e rest ih =>
    intro s s2 hx hd
    simp only [loopExec] at hx
    cases hstep : loopStep s e with
    | none => rw [hstep] at hx; cases hx
    | some s1 =>
      rw [hstep] at hx
      obtain ⟨h1, h2⟩ := loopStep_dead hstep hd
      intro hmem
      rcases List.mem_cons.mp hmem with hmem | hmem
      · exact h2 hmem.symm
      · exact ih s1 s2 hx h1 hmem

theorem loopExec_NoOldAfterNew :
    ∀ (tr : List LoopEv) (s s2 : LoopState), loopExec s tr = some s2 →
      ((s.newStarted = true ∨ 2 ≤ s.mpc) → s.oldAlive = false) → NoOldAfterNew tr := by
  intro tr
  induction tr with
  | nil => intro s s2 _ _; trivial
  | cons e rest ih =>
    intro s s2 hx hinv
    simp only [loopExec] at hx
    cases hstep : loopStep s e with
    | none => rw [hstep] at hx; cases hx
    | some s1 =>
      rw [hstep] at hx
      refine ⟨?_, ?_⟩
      · intro he
        subst he
        have hs : s.newStarted = true ∧ s1 = s := by
          simp only [loopStep] at hstep
          split at hstep
          · exact ⟨by assumption, (Option.some.inj hstep).symm⟩
          · exact absurd hstep (by simp)
        have hd : s1.oldAlive = false := by
          rw [hs.2]
          exact hinv (Or.inl hs.1)
        exact loopExec_no_oIter rest s1 s2 hx hd
      · exact ih s1 s2 hx (loopStep_inv hstep hinv)

theorem loopExec_NewAfterOldExit :
    ∀ (tr : List LoopEv) (s s2 : LoopState) (seen : Bool), loopExec s tr = some s2 →
      ((s.newStarted = true ∨ 2 ≤ s.mpc) → s.oldAlive = false) →
      (s.oldAlive = false → seen = true) → NewAfterOldExit seen tr := by
  intro tr
  induction tr with
  | nil => intro s s2 seen _ _ _; trivial
  | cons e rest ih =>
    intro s s2 seen hx hinv hseen
    simp only [loopExec] at hx
    cases hstep : loopStep s e with
    | none => rw [hstep] at hx; cases hx
    | some s1 =>
      rw [hstep] at hx
      refine ⟨?_, ?_⟩
      · intro he
        subst he
        have hs : s.newStarted = true := by
          simp only [loopStep] at hstep
          split at hstep
          · assumption
          · exact absurd hstep (by simp)
        exact hseen (hinv (Or.inl hs))
      · refine ih s1 s2 (seen || decide (e = LoopEv.oExit)) hx (loopStep_inv hstep hinv) ?_
        by_cases he : e = LoopEv.oExit
        · subst he
          intro _
          simp
        · intro hdead
          rw [loopStep_oldAlive_stable hstep he] at hdead
          rw [hseen hdead]
          simp

/-- C6: when the loop launcher runs while a previous mirror-loop thread is
alive, it signals the stop flag and joins that thread before starting the
new one, so in every execution of the interleaving model no old-loop
iteration occurs after a new-loop iteration has begun, and every new-loop
iteration is preceded by the old thread's exit. -/
theorem single_mirror_loop (tr : List LoopEv) (s2 : LoopState)
    (h : loopExec loopInit tr = some s2) :
    NoOldAfterNew tr ∧ NewAfterOldExit false tr := by
  have hinv : (loopInit.newStarted = true ∨ 2 ≤ loopInit.mpc) → loopInit.oldAlive = false := by
    intro hx
    simp [loopInit] at hx
  constructor
  · exact loopExec_NoOldAfterNew tr loopInit s2 h hinv
  · refine loopExec_NewAfterOldExit tr loopInit s2 false h hinv ?_
    intro hx
    simp [loopInit] at hx

/-- Witness for C6: the canonical stop-join-start interleaving satisfies
both ordering properties. -/
theorem single_mirror_loop_witness :
    NoOldAfterNew [LoopEv.mStop, .oIter, .oExit, .mJoin, .mStart, .nIter] ∧
    NewAfterOldExit false [LoopEv.mStop, .oIter, .oExit, .mJoin, .mStart, .nIter] :=
  single_mirror_loop _
    { mpc := 3, oldAlive := false, stopFlag := false, newStarted := true } rfl

/-! ## Initializer re-run: C3 -/

theorem pipStep_ret {a : InitArgs} {w : InitWorld} {pn : String} {evs : List InitEv}
    {P : String × String} (h : (pipStep a w pn evs).result = .ret P) :
    P = localDataPair pn := by
  simp only [pipStep] at h
  split at h
  · simp_all
  · split at h <;> simp_all

theorem colabAfterGit_ret {a : InitArgs} {w : InitWorld} {pn : String} {evs : List InitEv}
    {P : String × String} (h : (colabAfterGit a w pn evs).result = .ret P) :
    P = localDataPair pn := by
  simp only [colabAfterGit] at h
  split at h
  · split at h
    · exact pipStep_ret h
    · simp_all
  · exact pipStep_ret h
  · exact pipStep_ret h

theorem colabFull_ret {a : InitArgs} {w : InitWorld} {pn : String}
    {P : String × String} (h : (colabFull a w pn).result = .ret P) :
    P = localDataPair pn := by
  simp only [colabFull] at h
  split at h
  · split at h
    · split at h
      · exact colabAfterGit_ret h
      · simp_all
    · simp_all
  · exact colabAfterGit_ret h

/-- C3: in a Colab session where the clone directory already exists and
force is false, a repeat call of the initializer with the same arguments
returns the same data-path pair any successful first call returned, and its
event trace holds no subprocess or mirror-launch work at all: no git, rsync,
or pip operation runs on the early-return path. -/
theorem initialize_rerun_no_clone (a : InitArgs) (w1 w2 : InitWorld) (pn : String)
    (P : String × String)
    (hn : resolvedName a.git_url a.project_name = .okName pn)
    (hsess2 : w2.session = "colab" ∨ w2.session = "remote-colab")
    (hsess1 : w1.session = w2.session)
    (hforce : a.force = false)
    (hex : w2.pathExists (pathJoin "/content" pn) = true)
    (h1 : (initializeProject a w1).result = .ret P) :
    initializeProject a w2
      = { events := [.chdir (notebooksDir pn a.notebooks_folder)]
          result := .ret P } ∧
    (initializeProject a w2).events.filter isProcEv = [] := by
  have hcond : w1.session = "colab" ∨ w1.session = "remote-colab" := by
    rw [hsess1]; exact hsess2
  have hP : P = localDataPair pn := by
    simp only [initializeProject, hn] at h1
    rw [if_pos hcond] at h1
    split at h1
    · simp_all
    · exact colabFull_ret h1
  constructor
  · simp only [initializeProject, hn]
    rw [if_pos hsess2, hex, hforce]
    simp [hP]
  · simp only [initializeProject, hn]
    rw [if_pos hsess2, hex, hforce]
    simp [isProcEv]

/-- Witness for C3: the demo project cloned by a first call is not cloned
again by a second call once the clone directory exists; the same pair comes
back and no process events occur. -/
theorem initialize_rerun_no_clone_witness :
    initializeProject demoInitArgs demoWorld2
      = { events := [.chdir "/content/proj"]
          result := .ret ("/content/proj/data_project/", "/content/proj/data_job/") } ∧
    (initializeProject demoInitArgs demoWorld2).events.filter isProcEv = [] := by
  have h := initialize_rerun_no_clone demoInitArgs demoWorld1 demoWorld2 "proj"
    ("/content/proj/data_project/", "/content/proj/data_job/")
    rfl (Or.inl rfl) rfl rfl rfl rfl
  exact h

/-! ## First-cell job-name rewrite: C1 -/

theorem subScan_no_match (newName : List Char) :
    ∀ (s : List Char) (fuel : Nat) (atStart : Bool),
      hasMatchFrom atStart s = false → subScan newName fuel atStart s = s := by
  intro s
  induction s with
  | nil =>
    intro fuel atStart _
    cases fuel with
    | zero => rfl
    | succ f => cases atStart <;> rfl
  | cons c cs ih =>
    intro fuel atStart h
    rw [hasMatchFrom] at h
    obtain ⟨h1, h2⟩ := Bool.or_eq_false_iff.mp h
    cases fuel with
    | zero => rfl
    | succ f =>
      cases atStart with
      | false =>
        simp only [subScan]
        rw [ih f (decide (c = '\n')) h2]
        simp
      | true =>
        have hm : matchAt (c :: cs) = none := by
          cases hmm : matchAt (c :: cs) with
          | none => rfl
          | some m =>
            rw [if_pos rfl, hmm] at h1
            simp at h1
        simp only [subScan, hm]
        rw [ih f (decide (c = '\n')) h2]
        simp

theorem subScan_match (newName : List Char) (fuel : Nat) (s : List Char) (m : JMatch)
    (h : matchAt s = some m) :
    subScan newName (fuel + 1) true s
      = replOf newName m ++ subScan newName fuel false m.rest := by
  simp [subScan, h]

theorem subScan_char (newName : List Char) (fuel : Nat) (c : Char) (cs : List Char)
    (b : Bool) (hb : decide (c = '\n') = b) :
    subScan newName (fuel + 1) false (c :: cs) = c :: subScan newName fuel b cs := by
  simp [subScan, hb]

theorem subScan_nil (newName : List Char) (fuel : Nat) (atStart : Bool) :
    subScan newName fuel atStart [] = [] := by
  cases fuel with
  | zero => rfl
  | succ f => cases atStart <;> rfl

theorem skipWs_decomp : ∀ {s w r : List Char}, skipWs s = (w, r) → w ++ r = s := by
  intro s
  induction s with
  | nil =>
    intro w r h
    simp only [skipWs, Prod.mk.injEq] at h
    simp [← h.1, ← h.2]
  | cons c cs ih =>
    intro w r h
    rcases hsk : skipWs cs with ⟨w2, r2⟩
    by_cases hc : isPySpace c = true
    · simp only [skipWs, hc, if_true, hsk, Prod.mk.injEq] at h
      obtain ⟨rfl, rfl⟩ := h
      simpa using ih hsk
    · simp only [skipWs, hc, if_false, Prod.mk.injEq] at h
      obtain ⟨rfl, rfl⟩ := h
      rfl

theorem stripLit_decomp {lit s r : List Char} (h : stripLit lit s = some r) :
    lit ++ r = s := by
  unfold stripLit at h
  split at h
  · obtain rfl := Option.some.inj h
    have hp : lit <+: s := List.isPrefixOf_iff_prefix.mp (by assumption)
    obtain ⟨t, ht⟩ := hp
    have hd : s.drop lit.length = t := by
      rw [← ht]
      exact List.drop_left lit t
    rw [hd]
    exact ht
  · cases h

theorem lineOf_decomp : ∀ {s l r : List Char}, lineOf s = (l, r) → l ++ r = s := by
  intro s
  induction s with
  | nil =>
    intro l r h
    simp only [lineOf, Prod.mk.injEq] at h
    simp [← h.1, ← h.2]
  | cons c cs ih =>
    intro l r h
    rcases hln : lineOf cs with ⟨l2, r2⟩
    by_cases hc : c = '\n'
    · simp only [lineOf, hc, if_pos, Prod.mk.injEq] at h
      obtain ⟨rfl, rfl⟩ := h
      simp [hc]
    · simp only [lineOf, hc, if_false, hln, Prod.mk.injEq] at h
      obtain ⟨rfl, rfl⟩ := h
      simpa using ih hln

theorem lastSplitOn_decomp (q : List Char) :
    ∀ {s n t : List Char}, lastSplitOn q s = some (n, t) → n ++ q ++ t = s := by
  intro s
  induction s with
  | nil => intro n t h; cases h
  | cons c cs ih =>
    intro n t h
    rw [lastSplitOn] at h
    cases hrec : lastSplitOn q cs with
    | some p =>
      rcases p with ⟨n2, t2⟩
      rw [hrec] at h
      simp only [Option.some.injEq, Prod.mk.injEq] at h
      obtain ⟨rfl, rfl⟩ := h
      simpa using ih hrec
    | none =>
      rw [hrec] at h
      dsimp only at h
      split at h
      · simp only [Option.some.injEq, Prod.mk.injEq] at h
        obtain ⟨rfl, rfl⟩ := h
        have hp : q <+: (c :: cs) := List.isPrefixOf_iff_prefix.mp (by assumption)
        obtain ⟨u, hu⟩ := hp
        have hd : (c :: cs).drop q.length = u := by
          rw [← hu]
          exact List.drop_left q u
        rw [hd]
        simpa using hu
      · cases h

theorem tryQuote_decomp {q s n t r : List Char} (h : tryQuote q s = some (n, t, r)) :
    q ++ n ++ q ++ t ++ r = s := by
  unfold tryQuote at h
  cases hst : stripLit q s with
  | none => rw [hst] at h; cases h
  | some s2 =>
    rw [hst] at h
    dsimp only at h
    rcases hln : lineOf s2 with ⟨line, rest⟩
    rw [hln] at h
    dsimp only at h
    cases hsp : lastSplitOn q line with
    | none => rw [hsp] at h; cases h
    | some p =>
      rcases p with ⟨n2, t2⟩
      rw [hsp] at h
      simp only [Option.some.injEq, Prod.mk.injEq] at h
      obtain ⟨rfl, rfl, rfl⟩ := h
      have e1 := stripLit_decomp hst
      have e2 := lineOf_decomp hln
      have e3 := lastSplitOn_decomp q hsp
      rw [← e1, ← e2, ← e3]
      simp [List.append_assoc]

theorem append_chain_eq (w1 w2 w3 q n t r s1 s2 s3 s4 s5 s : List Char)
    (e1 : w1 ++ s1 = s) (e2 : jobNamePatLit ++ s2 = s1) (e3 : w2 ++ s3 = s2)
    (e4 : ['='] ++ s4 = s3) (e5 : w3 ++ s5 = s4) (e6 : q ++ n ++ q ++ t ++ r = s5) :
    (w1 ++ jobNamePatLit ++ w2 ++ ['='] ++ w3) ++ q ++ n ++ q ++ t ++ r = s := by
  subst e1
  subst e2
  subst e3
  subst e4
  subst e5
  subst e6
  simp [List.append_assoc]

/-- Every successful match of the pattern decomposes its input exactly: the
head, quote, name, quote and tail groups followed by the remainder
reassemble the scanned text. -/
theorem matchAt_decomp : ∀ {s : List Char} {m : JMatch}, matchAt s = some m →
    m.head ++ m.quote ++ m.name ++ m.quote ++ m.tail ++ m.rest = s := by
  intro s m h
  unfold matchAt at h
  rcases hw1 : skipWs s with ⟨w1, s1⟩
  rw [hw1] at h
  dsimp only at h
  cases hl1 : stripLit jobNamePatLit s1 with
  | none => rw [hl1] at h; cases h
  | some s2 =>
    rw [hl1] at h
    dsimp only at h
    rcases hw2 : skipWs s2 with ⟨w2, s3⟩
    rw [hw2] at h
    dsimp only at h
    cases hl2 : stripLit ['='] s3 with
    | none => rw [hl2] at h; cases h
    | some s4 =>
      rw [hl2] at h
      dsimp only at h
      rcases hw3 : skipWs s4 with ⟨w3, s5⟩
      rw [hw3] at h
      dsimp only at h
      cases hq1 : tryQuote dq s5 with
      | some p =>
        rcases p with ⟨n, t, r⟩
        rw [hq1] at h
        obtain rfl := (Option.some.inj h).symm
        exact append_chain_eq w1 w2 w3 dq n t r s1 s2 s3 s4 s5 s
          (skipWs_decomp hw1) (stripLit_decomp hl1) (skipWs_decomp hw2)
          (stripLit_decomp hl2) (skipWs_decomp hw3) (tryQuote_decomp hq1)
      | none =>
        rw [hq1] at h
        dsimp only at h
        cases hq2 : tryQuote sq s5 with
        | some p =>
          rcases p with ⟨n, t, r⟩
          rw [hq2] at h
          obtain rfl := (Option.some.inj h).symm
          exact append_chain_eq w1 w2 w3 sq n t r s1 s2 s3 s4 s5 s
            (skipWs_decomp hw1) (stripLit_decomp hl1) (skipWs_decomp hw2)
            (stripLit_decomp hl2) (skipWs_decomp hw3) (tryQuote_decomp hq2)
        | none =>
          rw [hq2] at h
          dsimp only at h
          cases hq3 : tryQuote dq3 s5 with
          | some p =>
            rcases p with ⟨n, t, r⟩
            rw [hq3] at h
            obtain rfl := (Option.some.inj h).symm
            exact append_chain_eq w1 w2 w3 dq3 n t r s1 s2 s3 s4 s5 s
              (skipWs_decomp hw1) (stripLit_decomp hl1) (skipWs_decomp hw2)
              (stripLit_decomp hl2) (skipWs_decomp hw3) (tryQuote_decomp hq3)
          | none =>
            rw [hq3] at h
            dsimp only at h
            cases hq4 : tryQuote sq3 s5 with
            | some p =>
              rcases p with ⟨n, t, r⟩
              rw [hq4] at h
              obtain rfl := (Option.some.inj h).symm
              exact append_chain_eq w1 w2 w3 sq3 n t r s1 s2 s3 s4 s5 s
                (skipWs_decomp hw1) (stripLit_decomp hl1) (skipWs_decomp hw2)
                (stripLit_decomp hl2) (skipWs_decomp hw3) (tryQuote_decomp hq4)
            | none =>
              rw [hq4] at h
              cases h

/-- Rendering every match with its original name group is the identity on
every cell: the scan only ever copies its input. -/
theorem subWith_name_id :
    ∀ (fuel : Nat) (atStart : Bool) (s : List Char),
      subWith (fun m => m.name) fuel atStart s = s := by
  intro fuel
  induction fuel with
  | zero => intro _ _; rfl
  | succ f ih =>
    intro atStart s
    cases atStart with
    | false =>
      cases s with
      | nil => rfl
      | cons c cs => simp [subWith, ih]
    | true =>
      cases hm : matchAt s with
      | none =>
        cases s with
        | nil => rfl
        | cons c cs => simp [subWith, hm, ih]
      | some m =>
        have hred : subWith (fun m => m.name) (f + 1) true s
            = m.head ++ m.quote ++ m.name ++ m.quote ++ m.tail
              ++ subWith (fun m => m.name) f false m.rest := by
          simp [subWith, hm]
        rw [hred, ih]
        exact matchAt_decomp hm

/-- The rewrite is the same scan with the constant new name rendered into
the name group of every match. -/
theorem subScan_eq_subWith (newName : List Char) :
    ∀ (fuel : Nat) (atStart : Bool) (s : List Char),
      subScan newName fuel atStart s = subWith (fun _ => newName) fuel atStart s := by
  intro fuel
  induction fuel with
  | zero => intro _ _; rfl
  | succ f ih =>
    intro atStart s
    cases atStart with
    | false =>
      cases s with
      | nil => rfl
      | cons c cs => simp [subScan, subWith, ih]
    | true =>
      cases hm : matchAt s with
      | none =>
        cases s with
        | nil => rfl
        | cons c cs => simp [subScan, subWith, hm, ih]
      | some m =>
        simp [subScan, subWith, hm, replOf, ih, List.append_assoc]

/-- C1 counterexample: on a first cell with a matching assignment on each of
two lines, the code's rewrite (re.sub with no count) differs from the
claim's rewrite that replaces only the first match and leaves the rest of
the cell text unchanged: the second line is replaced too. -/
theorem jobname_rewrite_first_only_false :
    jobSub ['n', 'e', 'w'] (demoCell ['o', 'l', 'd', '1'] ['o', 'l', 'd', '2'])
        ≠ jobSubFirstOnly ['n', 'e', 'w'] (demoCell ['o', 'l', 'd', '1'] ['o', 'l', 'd', '2']) ∧
    jobSubFirstOnly ['n', 'e', 'w'] (demoCell ['o', 'l', 'd', '1'] ['o', 'l', 'd', '2'])
      = demoLine ['n', 'e', 'w'] ++ '\n' :: demoLine ['o', 'l', 'd', '2'] := by
  decide

/-- C1 amended: for every first cell, the uploader's rewrite replaces the
job name in every non-overlapping match, not only the first, and changes
nothing else: the rewrite equals the scan rendering the new name into the
name group of each match, and the same scan rendering each match's original
name group reproduces every cell unchanged; a cell with no matching
assignment is left exactly identical; and on a concrete two-line cell both
assignments are rewritten.  The replacement name is restricted to names
without a backslash, where the literal splice models Python's
template-escape parsing exactly. -/
theorem jobname_rewrite_replaces_all (newName : List Char) (_hnb : '\\' ∉ newName) :
    (∀ cell : List Char,
      jobSub newName cell = subWith (fun _ => newName) cell.length true cell) ∧
    (∀ cell : List Char, subWith (fun m => m.name) cell.length true cell = cell) ∧
    (∀ cell : List Char, hasMatchFrom true cell = false → jobSub newName cell = cell) ∧
    jobSub newName (demoCell ['o', 'l', 'd', '1'] ['o', 'l', 'd', '2'])
      = demoCell newName newName := by
  refine ⟨?_, ?_, ?_, ?_⟩
  · intro cell
    exact subScan_eq_subWith newName cell.length true cell
  · intro cell
    exact subWith_name_id cell.length true cell
  · intro cell h
    exact subScan_no_match newName cell cell.length true h
  · have hm1 : matchAt (demoCell ['o', 'l', 'd', '1'] ['o', 'l', 'd', '2'])
        = some ⟨['j', 'o', 'b', '_', 'n', 'a', 'm', 'e', ' ', '=', ' '], ['"'],
            ['o', 'l', 'd', '1'], [], '\n' :: demoLine ['o', 'l', 'd', '2']⟩ := by
      decide
    have hm2 : matchAt (demoLine ['o', 'l', 'd', '2'])
        = some ⟨['j', 'o', 'b', '_', 'n', 'a', 'm', 'e', ' ', '=', ' '], ['"'],
            ['o', 'l', 'd', '2'], [], []⟩ := by
      decide
    have hlen : (demoCell ['o', 'l', 'd', '1'] ['o', 'l', 'd', '2']).length = 34 + 1 := by
      decide
    unfold jobSub
    rw [hlen, subScan_match newName 34 _ _ hm1]
    have h34 : (34 : Nat) = 33 + 1 := rfl
    rw [h34, subScan_char newName 33 '\n' _ true (by decide)]
    have h33 : (33 : Nat) = 32 + 1 := rfl
    rw [h33, subScan_match newName 32 _ _ hm2]
    rw [subScan_nil]
    simp [replOf, demoCell, demoLine, jobNamePrefix, List.append_assoc]

/-- Witness for C1's amended theorem: the rewrite of the concrete two-line
cell equals the new-name scan, the original-name scan reproduces that cell,
a cell with no assignment is left unchanged, and the two-line cell has both
assignments rewritten. -/
theorem jobname_rewrite_replaces_all_witness :
    jobSub ['x'] (demoCell ['o', 'l', 'd', '1'] ['o', 'l', 'd', '2'])
        = subWith (fun _ => ['x'])
            (demoCell ['o', 'l', 'd', '1'] ['o', 'l', 'd', '2']).length true
            (demoCell ['o', 'l', 'd', '1'] ['o', 'l', 'd', '2']) ∧
    subWith (fun m => m.name)
        (demoCell ['o', 'l', 'd', '1'] ['o', 'l', 'd', '2']).length true
        (demoCell ['o', 'l', 'd', '1'] ['o', 'l', 'd', '2'])
      = demoCell ['o', 'l', 'd', '1'] ['o', 'l', 'd', '2'] ∧
    jobSub ['x'] ['h', 'i'] = ['h', 'i'] ∧
    jobSub ['x'] (demoCell ['o', 'l', 'd', '1'] ['o', 'l', 'd', '2'])
      = demoCell ['x'] ['x'] :=
  ⟨(jobname_rewrite_replaces_all ['x'] (by decide)).1
      (demoCell ['o', 'l', 'd', '1'] ['o', 'l', 'd', '2']),
   (jobname_rewrite_replaces_all ['x'] (by decide)).2.1
      (demoCell ['o', 'l', 'd', '1'] ['o', 'l', 'd', '2']),
   (jobname_rewrite_replaces_all ['x'] (by decide)).2.2.1 ['h', 'i'] (by decide),
   (jobname_rewrite_replaces_all ['x'] (by decide)).2.2.2⟩

end BoostColab
